import Mathlib

/-!
Verification of `libgo/go/runtime/stubs.go`

A shallow embedding of the helper functions of the gccgo runtime stub file
(`round`, `index`, `hasprefix`, `atoi`, `findnull`, `gostring`, `rawstring`, `mallocgc`,
`casp`, `noescape`, `systemstack`, `typedmemmove`) together with the properties the runtime
specification states about them.

Conventions of the embedding:

* `uintptr` and `int` values are natural numbers and integers reduced explicitly modulo
  `2 ^ w`, where `w` is the word width of the target;
* a Go `string` is the list of its bytes; a string header (`stringStruct`) is a data
  address plus a length, read back from a byte-addressed memory;
* a Go run-time panic (index or slice out of range) is the outcome `Run.fault`; loops carry
  an iteration budget and report `Run.exhausted` when it runs out;
* the external allocator `runtime_mallocgc` is a parameter; every call made to it is logged;
* functions that this file only declares (`memmove`, `throw`, `atomic.Casp1`,
  `entersyscall`, `exitsyscall`) are modelled from their documentation, and say so.
-/

namespace Stubs

/-! ## Machine words -/

/-- Addition of two `uintptr` values of width `w`. -/
def uadd (w x y : Nat) : Nat := (x + y) % 2 ^ w

/-- Subtraction of two `uintptr` values of width `w`. -/
def usub (w x y : Nat) : Nat := (x + (2 ^ w - y % 2 ^ w)) % 2 ^ w

/-- Go's bit-clear operator `x &^ y` on `uintptr` values of width `w`. -/
def andNot (w x y : Nat) : Nat := x &&& (2 ^ w - 1 - y % 2 ^ w)

/-- The source function `round`: `(n + a - 1) &^ (a - 1)` in `uintptr` arithmetic. -/
def round (w n a : Nat) : Nat := andNot w (usub w (uadd w n a) 1) (usub w a 1)

/-- Reduction of an integer to a signed `w`-bit `int` (two's complement wrap-around). -/
def wrapInt (w : Nat) (x : Int) : Int := Int.bmod x (2 ^ w)

/-! ## Outcomes of running Go code -/

/-- Outcome of a piece of Go code: a value, a run-time panic (index or slice out of range),
or an exhausted iteration budget. -/
inductive Run (α : Type) where
  | done (v : α)
  | fault
  | exhausted
deriving DecidableEq, Repr

/-- Sequencing of outcomes: the first panic or exhaustion wins. -/
def Run.bind {α β : Type} : Run α → (α → Run β) → Run β
  | .done v, f => f v
  | .fault, _ => .fault
  | .exhausted, _ => .exhausted

instance : Monad Run where
  pure := Run.done
  bind := Run.bind

/-! ## Strings -/

/-- A Go string value, as the list of its bytes. -/
abbrev GoString := List UInt8

/-- The indexing expression `s[i]`; it panics when `i` is out of range. -/
def byteAt (s : GoString) (i : Nat) : Run UInt8 :=
  match s[i]? with
  | some b => .done b
  | none => .fault

/-- The slice expression `s[i:]`; it panics when `i > len(s)`. -/
def sliceFrom (s : GoString) (i : Nat) : Run GoString :=
  if i ≤ s.length then .done (s.drop i) else .fault

/-- The slice expression `s[:n]`; it panics when `n > len(s)`. -/
def sliceTo (s : GoString) (n : Nat) : Run GoString :=
  if n ≤ s.length then .done (s.take n) else .fault

/-- The source function `hasprefix`: `len(s) >= len(t) && s[:len(t)] == t`. -/
def hasprefix (s t : GoString) : Run Bool :=
  if s.length ≥ t.length then do
    let p ← sliceTo s t.length
    pure (decide (p = t))
  else pure false

/-- The `for i := 0; i < len(s); i++` loop of `index`, from position `i`, with an iteration
budget. -/
def indexLoop (s t : GoString) : Nat → Nat → Run Int
  | 0, _ => .exhausted
  | fuel + 1, i =>
    if i < s.length then do
      let a ← byteAt s i
      let b ← byteAt t 0
      let c ← if a = b then do
          let u ← sliceFrom s i
          hasprefix u t
        else pure false
      if c then pure (i : Int) else indexLoop s t fuel (i + 1)
    else pure (-1)

/-- The source function `index`. The loop runs at most `len(s) + 1` times. -/
def index (s t : GoString) : Run Int :=
  if t.length = 0 then pure 0 else indexLoop s t (s.length + 1) 0

/-- The loop of `atoi` on the remaining string `s` with accumulator `n`, in `int`
arithmetic of width `w`, with an iteration budget. -/
def atoiLoop (w : Nat) : Nat → GoString → Int → Run Int
  | 0, _, _ => .exhausted
  | fuel + 1, s, n => do
    let c ← if s.length > 0 then do
        let b ← byteAt s 0
        if (48 : UInt8) ≤ b then do
          let b' ← byteAt s 0
          pure (decide (b' ≤ (57 : UInt8)))
        else pure false
      else pure false
    if c then do
      let d ← byteAt s 0
      let n' := wrapInt w (wrapInt w (wrapInt w (n * 10) + wrapInt w d.toNat) - 48)
      let s' ← sliceFrom s 1
      atoiLoop w fuel s' n'
    else pure n

/-- The source function `atoi`. The loop runs at most `len(s) + 1` times. -/
def atoi (w : Nat) (s : GoString) : Run Int := atoiLoop w (s.length + 1) s 0

/-- The string `t` occurs in `s` at position `i`: `s[i:i+len(t)] == t`. -/
def occursAt (s t : GoString) (i : Nat) : Prop :=
  i + t.length ≤ s.length ∧ (s.drop i).take t.length = t

instance (s t : GoString) (i : Nat) : Decidable (occursAt s t i) := by
  unfold occursAt; infer_instance

/-- The byte is one of the ASCII digits `'0'..'9'`. -/
def isDigit (b : UInt8) : Bool := decide ((48 : UInt8) ≤ b) && decide (b ≤ (57 : UInt8))

/-- The longest run of ASCII digits at the start of `s`. -/
def leadingDigits (s : GoString) : GoString := s.takeWhile isDigit

/-- Decimal value of a digit string read after an already accumulated value `acc`. -/
def decimalFrom (acc : Nat) (d : GoString) : Nat :=
  d.foldl (fun a b => a * 10 + (b.toNat - 48)) acc

/-- Decimal value of a digit string. -/
def decimalValue (d : GoString) : Nat := decimalFrom 0 d

/-- One iteration of the body of the `atoi` loop: `n*10 + int(b) - '0'`. -/
def atoiStep (w : Nat) (n : Int) (b : UInt8) : Int :=
  wrapInt w (wrapInt w (wrapInt w (n * 10) + wrapInt w b.toNat) - 48)

/-! ## Targets, memory and the allocation trampoline -/

/-- The build target: the width of `uintptr` and `int`, and the 0/1 constants of package
`sys` that the heap-size constants depend on. -/
structure Target where
  ptrBits : Nat
  goosWindows : Nat
  goosDarwin : Nat
  goarchArm64 : Nat
deriving DecidableEq, Repr

/-- The source constant `_64bit = 1 << (^uintptr(0) >> 63) / 2`. -/
def _64bit (T : Target) : Nat := (1 <<< ((2 ^ T.ptrBits - 1) >>> 63)) / 2

/-- The source constant `_MHeapMap_TotalBits`. -/
def _MHeapMap_TotalBits (T : Target) : Nat :=
  (_64bit T * T.goosWindows) * 35 +
    (_64bit T * (1 - T.goosWindows) * (1 - T.goosDarwin * T.goarchArm64)) * 39 +
    T.goosDarwin * T.goarchArm64 * 31 + (1 - _64bit T) * 32

/-- The source constant `_MaxMem = uintptr(1<<_MHeapMap_TotalBits - 1)`. -/
def _MaxMem (T : Target) : Nat := (1 <<< _MHeapMap_TotalBits T - 1) % 2 ^ T.ptrBits

/-- A 64-bit target that is neither Windows nor Darwin/arm64. -/
def linuxAmd64 : Target := ⟨64, 0, 0, 0⟩

/-- Byte-addressed memory; address `0` is the nil pointer. -/
abbrev Mem := Nat → UInt8

/-- One call of the external allocator: `c_mallocgc(size, typ, flag)`. -/
structure MallocCall where
  size : Nat
  typ : Nat
  flag : Nat
deriving DecidableEq, Repr

/-- The state the stub functions act on: the memory and the log of the calls made to the
external allocator. -/
structure World where
  mem : Mem
  calls : List MallocCall

/-- Behaviour of the external allocator `runtime_mallocgc`: from the state before the call
and the call's arguments, the returned pointer and the memory after the call. -/
abbrev Allocator := World → MallocCall → Nat × Mem

/-- The external function `c_mallocgc` (`//extern runtime_mallocgc`): it answers as the
allocator `E` does, and the call is logged. -/
def c_mallocgc (E : Allocator) (size typ flag : Nat) (σ : World) : Nat × World :=
  let c : MallocCall := ⟨size, typ, flag⟩
  let r := E σ c
  (r.1, { mem := r.2, calls := σ.calls ++ [c] })

/-- The source function `mallocgc`; `typ` is the address held by the `*_type` pointer. -/
def mallocgc (E : Allocator) (size typ : Nat) (needzero : Bool) (σ : World) : Nat × World :=
  let flag : Nat := 0
  let flag := if !needzero then (1 <<< 3) % 2 ^ 32 else flag
  c_mallocgc E size typ flag σ

/-- The source type `stringStruct`: the header of a string value. -/
structure stringStruct where
  str : Nat
  len : Int
deriving DecidableEq, Repr

/-- The conversion `uintptr(x)` of an `int`. -/
def toUintptr (T : Target) (x : Int) : Nat := (x % ((2 ^ T.ptrBits : Nat) : Int)).toNat

/-- The source function `rawstring`: the buffer pointer `p`, the string header `s`, and the
state after the allocation. -/
def rawstring (T : Target) (E : Allocator) (size : Int) (σ : World) :
    (Nat × stringStruct) × World :=
  let r := mallocgc E (toUintptr T size) 0 false σ
  let p := r.1
  let s : stringStruct := ⟨0, 0⟩
  let s := { s with str := p }
  let s := { s with len := size }
  ((p, s), r.2)

/-- Modelled from the spec: `memmove`, whose body is assembly outside this file (it copies
`n` bytes from `from` to `to`); the `n` bytes at `dst` become the bytes that were
at `src`. -/
def memmove (m : Mem) (dst src n : Nat) : Mem :=
  fun a => if dst ≤ a ∧ a < dst + n then m (src + (a - dst)) else m a

/-- The `for p[l] != 0` loop of `findnull` from index `l`, where `p` is an array of
`bound` bytes at address `s`: indexing at or past `bound` panics. -/
def findnullLoop (m : Mem) (s bound : Nat) : Nat → Nat → Run Int
  | 0, _ => .exhausted
  | fuel + 1, l =>
    if l < bound then
      if m (s + l) ≠ 0 then findnullLoop m s bound fuel (l + 1) else .done (l : Int)
    else .fault

/-- The source function `findnull`; the array type has `_MaxMem/2 - 1` elements, so the
loop runs at most that many times plus one. -/
def findnull (T : Target) (m : Mem) (s : Nat) : Run Int :=
  if s = 0 then pure 0
  else findnullLoop m s (_MaxMem T / 2 - 1) (_MaxMem T / 2 - 1 + 1) 0

/-- The source function `gostring`: the returned string header and the state afterwards. -/
def gostring (T : Target) (E : Allocator) (p : Nat) (σ : World) :
    Run (stringStruct × World) := do
  let l ← findnull T σ.mem p
  if l = 0 then pure (⟨0, 0⟩, σ)
  else
    let r := rawstring T E l σ
    let σ2 : World := { r.2 with mem := memmove r.2.mem r.1.1 p (toUintptr T l) }
    pure (r.1.2, σ2)

/-- The bytes of the string with header `s`, read from memory `m`. -/
def stringBytes (m : Mem) (s : stringStruct) : GoString :=
  (List.range s.len.toNat).map (fun i => m (s.str + i))

/-- Memory after the bytes `B` have been written at address `p`. -/
def writeBytes (m : Mem) (p : Nat) (B : GoString) : Mem :=
  fun a => if h : p ≤ a ∧ a - p < B.length then B.get ⟨a - p, h.2⟩ else m a

/-- Address `p` holds the bytes `B`, none of them zero, followed by a zero byte. -/
def pointsAt (m : Mem) (p : Nat) (B : GoString) : Prop :=
  (∀ b ∈ B, b ≠ 0) ∧ (∀ i (h : i < B.length), m (p + i) = B[i]) ∧ m (p + B.length) = 0

/-- An allocator that hands out consecutive blocks from address 4096 and leaves memory
untouched. -/
def sampleAllocator : Allocator :=
  fun σ _ => (4096 + (σ.calls.map MallocCall.size).sum, σ.mem)

/-- A memory holding the C string `hi` at address 100. -/
def sampleMem : Mem := fun a => if a = 100 then 104 else if a = 101 then 105 else 0

/-- The state with memory `sampleMem` and no allocation made yet. -/
def sampleWorld : World := ⟨sampleMem, []⟩

/-- A memory holding, at address 1, `2 ^ 38 - 2` non-zero bytes followed by a zero byte. -/
def hugeMem : Mem := fun a => if a = 1 + (2 ^ 38 - 2) then 0 else 1

/-! ## Pointer compare-and-swap -/

/-- Memory of pointer-sized slots: the pointer held at each slot address. -/
abbrev PtrMem := Nat → Nat

/-- A compare-and-swap primitive on pointer slots: from the slots before the call, the slot
address, the expected and the new pointer, the result and the slots after the call. -/
abbrev CasPrimitive := PtrMem → Nat → Nat → Nat → Bool × PtrMem

/-- Modelled from the spec: `atomic.Casp1`, of package `runtime/internal/atomic` outside
this file, as one atomic step: it "succeeds and stores `new` iff current value equals
`expected`; otherwise leaves memory unchanged and returns false". -/
def Casp1 : CasPrimitive :=
  fun h ptr old new => if h ptr = old then (true, Function.update h ptr new) else (false, h)

/-- The source function `noescape`: `unsafe.Pointer(uintptr(p) ^ 0)`. -/
def noescape (p : Nat) : Nat :=
  let x := p
  x ^^^ 0

/-- The source function `casp`, over the compare-and-swap primitive it calls. -/
def casp (cas1 : CasPrimitive) (h : PtrMem) (ptr old new : Nat) : Bool × PtrMem :=
  let r := cas1 h (noescape ptr) (noescape old) new
  if !r.1 then (false, r.2) else (true, r.2)

/-- Two `casp` calls on one slot with the same expected pointer, run one after the other as
atomic steps: the result of the first, the result of the second, and the final slots. -/
def caspTwice (h : PtrMem) (slot old n1 n2 : Nat) : Bool × Bool × PtrMem :=
  let r1 := casp Casp1 h slot old n1
  let r2 := casp Casp1 r1.2 slot old n2
  (r1.1, r2.1, r2.2)

/-! ## Running a function on the system stack -/

/-- How a call ends: it returns normally in a state, or the program is crashed by `throw`
with a message. -/
inductive Exec (σ : Type) where
  | returns (s : σ)
  | thrown (msg : String) (s : σ)
deriving DecidableEq, Repr

/-- A Go `func()` value: a closure acting on the state it shares with its caller. -/
abbrev GoFunc (σ : Type) := σ → Exec σ

/-- Modelled from the spec: `throw`, declared without a body in this file ("throw crashes
the program"): the call never returns and the message is reported. -/
def throw {σ : Type} (msg : String) : GoFunc σ := fun s => Exec.thrown msg s

/-- The message of `badsystemstack`. -/
def badsystemstackMsg : String := "systemstack called from unexpected goroutine"

/-- The source function `systemstack`: its body is the call `fn()`. -/
def systemstack {σ : Type} (fn : GoFunc σ) : GoFunc σ := fun s => fn s

/-- The source function `badsystemstack`. -/
def badsystemstack {σ : Type} : GoFunc σ := fun s => throw badsystemstackMsg s

/-- Continuing in the caller after a call: the rest `k` of the caller runs in the state the
call returned in, and does not run when the call crashed. -/
def Exec.andThen {σ : Type} (e : Exec σ) (k : GoFunc σ) : Exec σ :=
  match e with
  | .returns s => k s
  | .thrown msg s => .thrown msg s

/-- The state in which a call ended. -/
def Exec.state {σ : Type} : Exec σ → σ
  | .returns s => s
  | .thrown _ s => s

/-- The closure `fn` instrumented with a counter of its invocations. -/
def counted {σ : Type} (fn : GoFunc σ) : GoFunc (σ × Nat) :=
  fun sc => match fn sc.1 with
    | .returns s => .returns (s, sc.2 + 1)
    | .thrown msg s => .thrown msg (s, sc.2 + 1)

/-- The execution context of a call of `systemstack`: whether the caller already runs on
the system stack, and whether the worker has a task assigned. -/
structure Context where
  onSystemStack : Bool
  hasTask : Bool
deriving DecidableEq, Repr

/-! ## Typed copy and the write-barrier record -/

/-- Modelled from the spec: the type descriptor `_type`, declared outside this file. The
field `size` is the one read here; `kind` and `gc` stand for the rest of the descriptor,
`gc` for the description of where the pointers of the type lie. -/
structure _type where
  size : Nat
  kind : Nat
  gc : Nat
deriving DecidableEq, Repr

/-- The type of the source variable `writeBarrier`. -/
structure WriteBarrier where
  enabled : Bool
  needed : Bool
  cgo : Bool
  alignme : Nat
deriving DecidableEq, Repr

/-- The state a typed copy acts on: the memory, the variable `writeBarrier`, and the log of
the calls `(slot, old, new)` made to the collector's barrier hook. -/
structure Runtime where
  mem : Mem
  writeBarrier : WriteBarrier
  barrierCalls : List (Nat × Nat × Nat)

/-- The source function `typedmemmove`: `memmove(dst, src, typ.size)`. -/
def typedmemmove (typ : _type) (dst src : Nat) (R : Runtime) : Runtime :=
  { R with mem := memmove R.mem dst src typ.size }

/-- A state in which the write barrier is enabled and no barrier hook has been called. -/
def barrierOnRuntime : Runtime := ⟨sampleMem, ⟨true, true, false, 0⟩, []⟩

/-! ## Syscall boundary -/

/-- Status tag of a task. -/
inductive Status where
  | runnable
  | running
  | inSyscall
  | dead
deriving DecidableEq, Repr

/-- Modelled from the spec: a task, with its status tag and the back-reference to the
worker running it (none while detached). -/
structure Task where
  status : Status
  worker : Option Nat
deriving DecidableEq, Repr

/-- Modelled from the spec: the scheduler's side of the syscall boundary: whether a worker
is still free for the task that left it, and the worker handed out by `reattach`. -/
structure Scheduler where
  available : Nat → Bool
  reattach : Task → Nat

/-- Modelled from the spec: `entersyscall`, declared without a body in this file: it
"records that the worker's current task is now in-syscall". -/
def entersyscall (_k : Int) (t : Task) : Task := { t with status := Status.inSyscall }

/-- Modelled from the spec: `exitsyscall`, declared without a body in this file: it
"attempts to reacquire the same worker context the task had before entering the call; if
that worker was reassigned elsewhere in the interim, coordinates with the scheduler to
obtain a different worker", and restores the status `running`. -/
def exitsyscall (S : Scheduler) (_k : Int) (t : Task) : Task :=
  let m := match t.worker with
    | some m => if S.available m then m else S.reattach t
    | none => S.reattach t
  { status := Status.running, worker := some m }

/-! ## Auxiliary lemmas: machine words -/

theorem one_lt_two_pow_of_pos {w : Nat} (hw : 0 < w) : 1 < 2 ^ w :=
  Nat.one_lt_two_pow (Nat.pos_iff_ne_zero.mp hw)

theorem usub_one_of_pos {w x : Nat} (hw : 0 < w) (hx : 0 < x) :
    usub w x 1 = (x - 1) % 2 ^ w := by
  have h1 : 1 < 2 ^ w := one_lt_two_pow_of_pos hw
  unfold usub
  rw [Nat.mod_eq_of_lt h1]
  have : x + (2 ^ w - 1) = (x - 1) + 2 ^ w := by omega
  rw [this, Nat.add_mod_right]

theorem usub_uadd_one {w n a : Nat} (hw : 0 < w) (ha : 0 < a) :
    usub w (uadd w n a) 1 = (n + a - 1) % 2 ^ w := by
  have h1 : 1 < 2 ^ w := one_lt_two_pow_of_pos hw
  unfold usub uadd
  rw [Nat.mod_eq_of_lt h1, Nat.mod_add_mod]
  have : n + a + (2 ^ w - 1) = (n + a - 1) + 2 ^ w := by omega
  rw [this, Nat.add_mod_right]

theorem andNot_two_pow_sub_one {w k x : Nat} (hk : k ≤ w) (hx : x < 2 ^ w) :
    andNot w x (2 ^ k - 1) = x - x % 2 ^ k := by
  have hkw : 2 ^ k ≤ 2 ^ w := Nat.pow_le_pow_right (by decide) hk
  have hpos : 0 < 2 ^ k := Nat.two_pow_pos k
  have hlt : 2 ^ k - 1 < 2 ^ w := by omega
  have hdiv : x - x % 2 ^ k = 2 ^ k * (x / 2 ^ k) := by
    have := Nat.div_add_mod x (2 ^ k)
    omega
  unfold andNot
  rw [Nat.mod_eq_of_lt hlt, hdiv]
  have hsub : 2 ^ w - 1 - (2 ^ k - 1) = 2 ^ w - ((2 ^ k - 1) + 1) := by omega
  rw [hsub]
  apply Nat.eq_of_testBit_eq
  intro j
  rw [Nat.testBit_and, Nat.testBit_two_pow_sub_succ hlt, Nat.testBit_two_pow_sub_one,
    Nat.testBit_mul_pow_two, ← Nat.shiftRight_eq_div_pow, Nat.testBit_shiftRight]
  by_cases hjk : j < k
  · have : ¬ j ≥ k := by omega
    simp [hjk, this]
  · have hge : j ≥ k := by omega
    have hadd : k + (j - k) = j := by omega
    by_cases hjw : j < w
    · simp [hjk, hge, hjw, hadd]
    · have hxj : x.testBit j = false :=
        Nat.testBit_lt_two_pow (lt_of_lt_of_le hx (Nat.pow_le_pow_right (by decide) (by omega)))
      simp [hjk, hge, hjw, hadd, hxj]

/-- Closed form of `round` at a power-of-two alignment. -/
theorem round_two_pow {w k : Nat} (hk : k < w) (n : Nat) :
    round w n (2 ^ k) =
      (n + 2 ^ k - 1) % 2 ^ w - ((n + 2 ^ k - 1) % 2 ^ w) % 2 ^ k := by
  have hw : 0 < w := by omega
  have hpos : 0 < 2 ^ k := Nat.two_pow_pos k
  have hkw : 2 ^ k < 2 ^ w := Nat.pow_lt_pow_right (by decide) hk
  unfold round
  rw [usub_uadd_one hw hpos, usub_one_of_pos hw hpos,
    Nat.mod_eq_of_lt (by omega : 2 ^ k - 1 < 2 ^ w),
    andNot_two_pow_sub_one (le_of_lt hk) (Nat.mod_lt _ (Nat.two_pow_pos w))]


theorem le_mul_div_pred {a : Nat} (ha : 0 < a) (n : Nat) :
    n ≤ a * ((n + a - 1) / a) := by
  have h := Nat.lt_mul_div_succ (n + a - 1) ha
  rw [Nat.mul_add, Nat.mul_one] at h
  omega

theorem mul_div_pred_le {a m n : Nat} (ha : 0 < a) (hd : a ∣ m) (hnm : n ≤ m) :
    a * ((n + a - 1) / a) ≤ m := by
  obtain ⟨q, rfl⟩ := hd
  apply Nat.mul_le_mul_left
  have hlt : (n + a - 1) / a < q + 1 := by
    apply Nat.div_lt_of_lt_mul
    rw [Nat.mul_add, Nat.mul_one]
    omega
  omega

theorem sub_mod_eq_mul_div (x a : Nat) : x - x % a = a * (x / a) := by
  have := Nat.div_add_mod x a
  omega

/-! ## Auxiliary lemmas: strings -/

@[simp] theorem Run.pure_eq {α : Type} (v : α) : (pure v : Run α) = Run.done v := rfl

@[simp] theorem Run.done_bind {α β : Type} (v : α) (f : α → Run β) :
    (Run.done v >>= f) = f v := rfl

theorem byteAt_of_lt {s : GoString} {i : Nat} (h : i < s.length) :
    byteAt s i = Run.done s[i] := by
  simp [byteAt, List.getElem?_eq_getElem h]

theorem sliceFrom_of_le {s : GoString} {i : Nat} (h : i ≤ s.length) :
    sliceFrom s i = Run.done (s.drop i) := by
  simp [sliceFrom, h]

theorem sliceTo_of_le {s : GoString} {n : Nat} (h : n ≤ s.length) :
    sliceTo s n = Run.done (s.take n) := by
  simp [sliceTo, h]

theorem hasprefix_eq (s t : GoString) :
    hasprefix s t = Run.done (decide (t.length ≤ s.length ∧ s.take t.length = t)) := by
  unfold hasprefix
  by_cases h : t.length ≤ s.length
  · simp [h, sliceTo_of_le h]
  · simp [h]

theorem hasprefix_drop_eq (s t : GoString) (i : Nat) (hi : i ≤ s.length) :
    hasprefix (s.drop i) t = Run.done (decide (occursAt s t i)) := by
  rw [hasprefix_eq]
  congr 1
  unfold occursAt
  rw [List.length_drop]
  have : t.length ≤ s.length - i ↔ i + t.length ≤ s.length := by omega
  simp only [this]


theorem occursAt_head {s t : GoString} {i : Nat} (h : occursAt s t i)
    (hi : i < s.length) (ht : 0 < t.length) : s[i] = t[0] := by
  obtain ⟨_, h2⟩ := h
  have h0 : 0 < ((s.drop i).take t.length).length := by rw [h2]; exact ht
  have e1 : ((s.drop i).take t.length)[0] = t[0] := by
    simp [h2]
  rw [← e1]
  simp [List.getElem_take, List.getElem_drop]

theorem indexLoop_succ (s t : GoString) (fuel i : Nat) (hi : i < s.length)
    (ht : 0 < t.length) :
    indexLoop s t (fuel + 1) i =
      if occursAt s t i then Run.done (i : Int) else indexLoop s t fuel (i + 1) := by
  rw [indexLoop]
  simp only [hi, if_true, byteAt_of_lt hi, byteAt_of_lt ht, Run.done_bind]
  by_cases heq : s[i] = t[0]
  · simp only [heq, if_true, sliceFrom_of_le (le_of_lt hi), Run.done_bind,
      hasprefix_drop_eq s t i (le_of_lt hi)]
    by_cases hocc : occursAt s t i <;> simp [hocc]
  · have hocc : ¬ occursAt s t i := fun h => heq (occursAt_head h hi ht)
    simp [heq, hocc]

theorem indexLoop_done (s t : GoString) (fuel i : Nat) (hi : s.length ≤ i) :
    indexLoop s t (fuel + 1) i = Run.done (-1) := by
  unfold indexLoop
  simp [Nat.not_lt.mpr hi]

theorem not_occursAt_of_le {s t : GoString} {j : Nat} (ht : 0 < t.length)
    (hj : s.length ≤ j) : ¬ occursAt s t j := by
  intro h
  have := h.1
  omega

/-- Loop invariant of `index`: started at position `i` with enough fuel, the loop stops at
the least occurrence of `t` at or after `i`, or at `-1` when there is none. -/
theorem indexLoop_spec (s t : GoString) (ht : 0 < t.length) :
    ∀ fuel i, i ≤ s.length → s.length < fuel + i →
      (∃ r : Nat, indexLoop s t fuel i = Run.done (r : Int) ∧ i ≤ r ∧ occursAt s t r ∧
          ∀ j, i ≤ j → j < r → ¬ occursAt s t j) ∨
      (indexLoop s t fuel i = Run.done (-1) ∧ ∀ j, i ≤ j → ¬ occursAt s t j) := by
  intro fuel
  induction fuel with
  | zero =>
    intro i h h'
    omega
  | succ fuel ih =>
    intro i _ h
    by_cases hi : i < s.length
    · rw [indexLoop_succ s t fuel i hi ht]
      by_cases hocc : occursAt s t i
      · left
        refine ⟨i, by simp [hocc], le_refl i, hocc, ?_⟩
        intro j h1 h2
        omega
      · simp only [hocc, if_false]
        rcases ih (i + 1) (by omega) (by omega) with ⟨r, h1, h2, h3, h4⟩ | ⟨h1, h2⟩
        · left
          refine ⟨r, h1, by omega, h3, ?_⟩
          intro j hj1 hj2
          by_cases hji : j = i
          · subst hji; exact hocc
          · exact h4 j (by omega) hj2
        · right
          refine ⟨h1, ?_⟩
          intro j hj
          by_cases hji : j = i
          · subst hji; exact hocc
          · exact h2 j (by omega)
    · right
      refine ⟨indexLoop_done s t fuel i (by omega), ?_⟩
      intro j hj
      exact not_occursAt_of_le ht (by omega)


theorem atoiLoop_nil (w fuel : Nat) (n : Int) :
    atoiLoop w (fuel + 1) [] n = Run.done n := by
  rw [atoiLoop]
  simp

theorem atoiLoop_cons_digit (w fuel : Nat) (b : UInt8) (rest : GoString) (n : Int)
    (hb : isDigit b = true) :
    atoiLoop w (fuel + 1) (b :: rest) n = atoiLoop w fuel rest (atoiStep w n b) := by
  rw [atoiLoop]
  simp only [isDigit, Bool.and_eq_true, decide_eq_true_eq] at hb
  simp [byteAt, sliceFrom, hb.1, hb.2, atoiStep]

theorem atoiLoop_cons_other (w fuel : Nat) (b : UInt8) (rest : GoString) (n : Int)
    (hb : isDigit b = false) :
    atoiLoop w (fuel + 1) (b :: rest) n = Run.done n := by
  rw [atoiLoop]
  simp only [isDigit, Bool.and_eq_false_iff, decide_eq_false_iff_not] at hb
  by_cases h1 : (48 : UInt8) ≤ b
  · have h2 : ¬ b ≤ (57 : UInt8) := by tauto
    simp [byteAt, h1, h2]
  · simp [byteAt, h1]

theorem atoiLoop_eq_foldl (w : Nat) :
    ∀ (fuel : Nat) (s : GoString) (n : Int), s.length < fuel →
      atoiLoop w fuel s n = Run.done ((leadingDigits s).foldl (atoiStep w) n) := by
  intro fuel
  induction fuel with
  | zero => intro s n h; omega
  | succ fuel ih =>
    intro s n h
    cases s with
    | nil => rw [atoiLoop_nil]; rfl
    | cons b rest =>
      cases hb : isDigit b with
      | true =>
        rw [atoiLoop_cons_digit w fuel b rest n hb, ih rest _ (by simpa using h)]
        simp [leadingDigits, List.takeWhile, hb]
      | false =>
        rw [atoiLoop_cons_other w fuel b rest n hb]
        simp [leadingDigits, List.takeWhile, hb]

theorem wrapInt_modEq (w : Nat) (x : Int) :
    wrapInt w x ≡ x [ZMOD ((2 ^ w : Nat) : Int)] := Int.bmod_emod

theorem wrapInt_congr {w : Nat} {x y : Int} (h : x ≡ y [ZMOD ((2 ^ w : Nat) : Int)]) :
    wrapInt w x = wrapInt w y := by
  unfold wrapInt
  rw [← Int.emod_bmod_congr x, ← Int.emod_bmod_congr y]
  exact congrArg (fun z => Int.bmod z (2 ^ w)) h

theorem atoiStep_wrap (w N : Nat) (b : UInt8) (hb : isDigit b = true) :
    atoiStep w (wrapInt w N) b = wrapInt w ((N * 10 + (b.toNat - 48) : Nat) : Int) := by
  simp only [isDigit, Bool.and_eq_true, decide_eq_true_eq] at hb
  have h48 : 48 ≤ b.toNat := by
    have := hb.1
    rw [UInt8.le_def] at this
    simpa using this
  unfold atoiStep
  apply wrapInt_congr
  have h1 : wrapInt w (wrapInt w (N : Int) * 10) ≡ (N : Int) * 10 [ZMOD ((2 ^ w : Nat) : Int)] :=
    (wrapInt_modEq w _).trans ((wrapInt_modEq w _).mul_right 10)
  have h2 := (wrapInt_modEq w _).trans (h1.add (wrapInt_modEq w (b.toNat : Int)))
  have h3 := h2.sub_right 48
  have e : ((N * 10 + (b.toNat - 48) : Nat) : Int) = (N : Int) * 10 + (b.toNat : Int) - 48 := by
    push_cast [Nat.cast_sub h48]
    ring
  rw [e]
  exact h3

theorem foldl_atoiStep_wrap (w : Nat) :
    ∀ (d : GoString) (N : Nat), (∀ b ∈ d, isDigit b = true) →
      d.foldl (atoiStep w) (wrapInt w N) = wrapInt w (decimalFrom N d) := by
  intro d
  induction d with
  | nil => intro N _; rfl
  | cons b rest ih =>
    intro N h
    have hb : isDigit b = true := h b (List.mem_cons_self b rest)
    rw [List.foldl_cons, atoiStep_wrap w N b hb,
      ih _ (fun c hc => h c (List.mem_cons_of_mem b hc))]
    rfl

theorem leadingDigits_all (s : GoString) : ∀ b ∈ leadingDigits s, isDigit b = true := by
  intro b hb
  exact List.mem_takeWhile_imp hb

/-- `atoi` returns the decimal value of the leading digits, wrapped to `w` bits. -/
theorem atoi_eq_wrap (w : Nat) (s : GoString) :
    atoi w s = Run.done (wrapInt w (decimalValue (leadingDigits s))) := by
  unfold atoi
  rw [atoiLoop_eq_foldl w _ s 0 (Nat.lt_succ_self _)]
  have h0 : (0 : Int) = wrapInt w ((0 : Nat) : Int) := by simp [wrapInt]
  rw [h0, foldl_atoiStep_wrap w _ 0 (leadingDigits_all s)]
  rfl

theorem wrapInt_of_fits {w v : Nat} (h : v < 2 ^ (w - 1)) : wrapInt w (v : Int) = v := by
  unfold wrapInt
  have hle : 2 ^ (w - 1) ≤ 2 ^ w := Nat.pow_le_pow_right (by decide) (Nat.sub_le w 1)
  have hhalf : 2 ^ (w - 1) ≤ (2 ^ w + 1) / 2 := by
    cases w with
    | zero => simp
    | succ k =>
      simp only [Nat.add_sub_cancel, Nat.pow_succ]
      omega
  rw [Int.bmod_pos]
  · exact Int.emod_eq_of_lt (by omega) (by exact_mod_cast lt_of_lt_of_le h hle)
  · rw [Int.emod_eq_of_lt (by omega) (by exact_mod_cast lt_of_lt_of_le h hle)]
    have : (v : Int) < ((2 ^ w + 1) / 2 : Nat) := by exact_mod_cast lt_of_lt_of_le h hhalf
    simpa using this

/-! ## Auxiliary lemmas: memory -/

@[simp] theorem Run.fault_bind {α β : Type} (f : α → Run β) :
    ((Run.fault : Run α) >>= f) = Run.fault := rfl

theorem findnullLoop_spec (m : Mem) (s bound L : Nat) (hL : L < bound)
    (hnz : ∀ i, i < L → m (s + i) ≠ 0) (hz : m (s + L) = 0) :
    ∀ fuel l, l ≤ L → L - l < fuel → findnullLoop m s bound fuel l = Run.done (L : Int) := by
  intro fuel
  induction fuel with
  | zero => intro l _ h; omega
  | succ fuel ih =>
    intro l hl hf
    rw [findnullLoop]
    by_cases hlt : l < L
    · simp only [show l < bound by omega, if_true, hnz l hlt, ne_eq, not_false_eq_true]
      exact ih (l + 1) (by omega) (by omega)
    · have : l = L := by omega
      subst this
      simp [hL, hz]

theorem findnullLoop_fault (m : Mem) (s bound : Nat) (hnz : ∀ i, i < bound → m (s + i) ≠ 0) :
    ∀ fuel l, l ≤ bound → bound - l < fuel → findnullLoop m s bound fuel l = Run.fault := by
  intro fuel
  induction fuel with
  | zero => intro l _ h; omega
  | succ fuel ih =>
    intro l hl hf
    rw [findnullLoop]
    by_cases hlt : l < bound
    · simp only [hlt, if_true, hnz l hlt, ne_eq, not_false_eq_true]
      exact ih (l + 1) (by omega) (by omega)
    · simp [hlt]

theorem _MaxMem_lt (T : Target) : _MaxMem T < 2 ^ T.ptrBits :=
  Nat.mod_lt _ (Nat.two_pow_pos _)

theorem toUintptr_natCast (T : Target) (n : Nat) (h : n < 2 ^ T.ptrBits) :
    toUintptr T (n : Int) = n := by
  unfold toUintptr
  rw [Int.emod_eq_of_lt (by omega) (by exact_mod_cast h)]
  simp

theorem findnull_eq (T : Target) (m : Mem) (p : Nat) (B : GoString) (hp : p ≠ 0)
    (hstr : pointsAt m p B) (hlen : B.length < _MaxMem T / 2 - 1) :
    findnull T m p = Run.done (B.length : Int) := by
  obtain ⟨hnz, hget, hz⟩ := hstr
  unfold findnull
  simp only [hp, if_false]
  apply findnullLoop_spec m p _ B.length hlen _ hz _ 0 (Nat.zero_le _) (by omega)
  intro i hi
  rw [hget i hi]
  exact hnz _ (List.getElem_mem hi)

theorem stringBytes_memmove (m : Mem) (d p : Nat) (B : GoString)
    (hget : ∀ i (h : i < B.length), m (p + i) = B[i]) :
    stringBytes (memmove m d p B.length) ⟨d, (B.length : Int)⟩ = B := by
  unfold stringBytes
  apply List.ext_getElem
  · simp
  · intro i h1 h2
    simp only [List.length_map, List.length_range, Int.toNat_ofNat] at h1
    simp only [List.getElem_map, List.getElem_range, memmove]
    have : d ≤ d + i ∧ d + i < d + B.length := ⟨by omega, by omega⟩
    rw [if_pos this, Nat.add_sub_cancel_left]
    exact hget i h2


theorem pointsAt_replicate (m : Mem) (p n : Nat) (h1 : ∀ i, i < n → m (p + i) = 1)
    (h2 : m (p + n) = 0) : pointsAt m p (List.replicate n 1) := by
  refine ⟨?_, ?_, ?_⟩
  · intro b hb
    rw [List.eq_of_mem_replicate hb]
    decide
  · intro i hi
    rw [List.getElem_replicate]
    exact h1 i (by simpa using hi)
  · rw [List.length_replicate]
    exact h2

/-! ## Rounding up to an alignment -/

/-- C1 (as amended): for every `uintptr` value `n` and every power-of-two alignment
`a = 2 ^ k`, `round(n, a)` is a multiple of `a` and is below `n + a`; it is at least `n`
exactly when `n + a - 1` does not wrap around in `uintptr` arithmetic. -/
theorem round_aligned_bounds (w k n : Nat) (hk : k < w) (hn : n < 2 ^ w) :
    round w n (2 ^ k) % 2 ^ k = 0 ∧ round w n (2 ^ k) < n + 2 ^ k ∧
      (n ≤ round w n (2 ^ k) ↔ n + 2 ^ k - 1 < 2 ^ w) := by
  have hpos : 0 < 2 ^ k := Nat.two_pow_pos k
  have hkw : 2 ^ k < 2 ^ w := Nat.pow_lt_pow_right (by decide) hk
  rw [round_two_pow hk]
  refine ⟨?_, ?_, ?_, ?_⟩
  · rw [sub_mod_eq_mul_div]
    exact Nat.mul_mod_right _ _
  · have h1 : (n + 2 ^ k - 1) % 2 ^ w ≤ n + 2 ^ k - 1 := Nat.mod_le _ _
    omega
  · intro hge
    by_contra hwrap
    have hxe : (n + 2 ^ k - 1) % 2 ^ w = n + 2 ^ k - 1 - 2 ^ w := by
      rw [Nat.mod_eq_sub_mod (by omega), Nat.mod_eq_of_lt (by omega)]
    omega
  · intro hno
    rw [Nat.mod_eq_of_lt hno, sub_mod_eq_mul_div]
    exact le_mul_div_pred hpos n

/-- Instance of `round_aligned_bounds` at width 64, `n = 13`, alignment 8. -/
theorem round_aligned_bounds_witness :
    (3 < 64 ∧ 13 < 2 ^ 64) ∧
      (round 64 13 (2 ^ 3) % 2 ^ 3 = 0 ∧ round 64 13 (2 ^ 3) < 13 + 2 ^ 3 ∧
        (13 ≤ round 64 13 (2 ^ 3) ↔ 13 + 2 ^ 3 - 1 < 2 ^ 64)) :=
  ⟨by decide, round_aligned_bounds 64 3 13 (by decide) (by decide)⟩

/-- C1 (as stated) fails: at width 64, `n = 2 ^ 64 - 1` and alignment 2, the sum
`n + a - 1` wraps to 0, so `round(n, a) = 0`, which is not at least `n`. -/
theorem round_wraps_below_input :
    2 ^ 64 - 1 < 2 ^ 64 ∧ 1 < 64 ∧ round 64 (2 ^ 64 - 1) (2 ^ 1) = 0 ∧
      ¬ (round 64 (2 ^ 64 - 1) (2 ^ 1) % 2 ^ 1 = 0 ∧
          2 ^ 64 - 1 ≤ round 64 (2 ^ 64 - 1) (2 ^ 1) ∧
          round 64 (2 ^ 64 - 1) (2 ^ 1) < 2 ^ 64 - 1 + 2 ^ 1) := by
  decide

/-- C2: when `n + a - 1` does not wrap around, `round(n, a)` at a power-of-two alignment
`a = 2 ^ k` is the least multiple of `a` that is at least `n`, and it equals `n` exactly
when `n` is already a multiple of `a`. -/
theorem round_least_multiple (w k n : Nat) (hk : k < w) (hnw : n + 2 ^ k - 1 < 2 ^ w) :
    2 ^ k ∣ round w n (2 ^ k) ∧ n ≤ round w n (2 ^ k) ∧
      (∀ m, 2 ^ k ∣ m → n ≤ m → round w n (2 ^ k) ≤ m) ∧
      (round w n (2 ^ k) = n ↔ 2 ^ k ∣ n) := by
  have hpos : 0 < 2 ^ k := Nat.two_pow_pos k
  have hr : round w n (2 ^ k) = 2 ^ k * ((n + 2 ^ k - 1) / 2 ^ k) := by
    rw [round_two_pow hk, Nat.mod_eq_of_lt hnw, sub_mod_eq_mul_div]
  rw [hr]
  refine ⟨Nat.dvd_mul_right _ _, le_mul_div_pred hpos n,
    fun m hd hnm => mul_div_pred_le hpos hd hnm, ?_, ?_⟩
  · intro h
    exact ⟨_, h.symm⟩
  · intro hd
    exact Nat.le_antisymm (mul_div_pred_le hpos hd (Nat.le_refl n)) (le_mul_div_pred hpos n)

/-- Instance of `round_least_multiple` at width 64, `n = 13`, alignment 8. -/
theorem round_least_multiple_witness :
    (3 < 64 ∧ 13 + 2 ^ 3 - 1 < 2 ^ 64) ∧
      (2 ^ 3 ∣ round 64 13 (2 ^ 3) ∧ 13 ≤ round 64 13 (2 ^ 3) ∧
        (∀ m, 2 ^ 3 ∣ m → 13 ≤ m → round 64 13 (2 ^ 3) ≤ m) ∧
        (round 64 13 (2 ^ 3) = 13 ↔ 2 ^ 3 ∣ 13)) :=
  ⟨by decide, round_least_multiple 64 3 13 (by decide) (by decide)⟩

/-! ## Substring search and prefix test -/

/-- C3: whenever `t` occurs in `s` at position `i`, `index(s, t)` returns a position
`r` with `0 ≤ r ≤ i` at which `t` occurs in `s`, and `t` occurs at no position before `r`:
the first occurrence. -/
theorem index_first_occurrence (s t : GoString) (i : Nat) (h : occursAt s t i) :
    ∃ r : Nat, index s t = Run.done (r : Int) ∧ r ≤ i ∧ occursAt s t r ∧
      ∀ j, j < r → ¬ occursAt s t j := by
  unfold index
  by_cases ht : t.length = 0
  · refine ⟨0, by simp [ht], Nat.zero_le i, ?_, fun j hj => absurd hj (Nat.not_lt_zero j)⟩
    have : t = [] := List.length_eq_zero.mp ht
    subst this
    exact ⟨by simp, by simp⟩
  · simp only [ht, if_false]
    rcases indexLoop_spec s t (Nat.pos_of_ne_zero ht) (s.length + 1) 0 (Nat.zero_le _)
        (by omega) with ⟨r, h1, _, h3, h4⟩ | ⟨_, h2⟩
    · refine ⟨r, h1, ?_, h3, fun j hj => h4 j (Nat.zero_le j) hj⟩
      by_contra hlt
      exact h4 i (Nat.zero_le i) (by omega) h
    · exact absurd h (h2 i (Nat.zero_le i))

/-- Instance of `index_first_occurrence`: `i` occurs in `hii` at position 2, and `index`
finds the earlier occurrence at position 1. -/
theorem index_first_occurrence_witness :
    occursAt [104, 105, 105] [105] 2 ∧
      ∃ r : Nat, index [104, 105, 105] [105] = Run.done (r : Int) ∧ r ≤ 2 ∧
        occursAt [104, 105, 105] [105] r ∧ ∀ j, j < r → ¬ occursAt [104, 105, 105] [105] j :=
  ⟨by decide, index_first_occurrence [104, 105, 105] [105] 2 (by decide)⟩

/-- C4: when `t` occurs in `s` at no position, `index(s, t)` is `-1`. -/
theorem index_absent (s t : GoString) (h : ∀ i, ¬ occursAt s t i) :
    index s t = Run.done (-1) := by
  unfold index
  by_cases ht : t.length = 0
  · exfalso
    have : t = [] := List.length_eq_zero.mp ht
    subst this
    exact h 0 ⟨by simp, by simp⟩
  · simp only [ht, if_false]
    rcases indexLoop_spec s t (Nat.pos_of_ne_zero ht) (s.length + 1) 0 (Nat.zero_le _)
        (by omega) with ⟨r, _, _, h3, _⟩ | ⟨h1, _⟩
    · exact absurd h3 (h r)
    · exact h1

/-- Instance of `index_absent`: `x` does not occur in `hi`. -/
theorem index_absent_witness :
    (∀ i, ¬ occursAt [104, 105] [120] i) ∧ index [104, 105] [120] = Run.done (-1) :=
  have hno : ∀ i, ¬ occursAt [104, 105] [120] i := by
    intro i h
    have hi : i < 2 := by
      have := h.1
      simp only [List.length_cons, List.length_nil] at this
      omega
    interval_cases i <;> exact absurd h (by decide)
  ⟨hno, index_absent [104, 105] [120] hno⟩

/-- C5: for every string `s`, the empty one included, `index(s, "")` is 0. -/
theorem index_empty_needle (s : GoString) : index s [] = Run.done 0 := by
  simp [index]

/-- C6: `hasprefix(s, t)` returns a boolean, which is true if and only if
`len(s) >= len(t)` and the first `len(t)` bytes of `s` equal `t`; that condition is
equivalent to `s = t ++ u` for some string `u`. -/
theorem hasprefix_iff (s t : GoString) :
    ∃ b : Bool, hasprefix s t = Run.done b ∧
      (b = true ↔ (t.length ≤ s.length ∧ s.take t.length = t)) ∧
      ((t.length ≤ s.length ∧ s.take t.length = t) ↔ ∃ u, s = t ++ u) := by
  refine ⟨decide (t.length ≤ s.length ∧ s.take t.length = t), hasprefix_eq s t, by simp, ?_⟩
  constructor
  · rintro ⟨_, h2⟩
    exact ⟨s.drop t.length, by conv_lhs => rw [← List.take_append_drop t.length s, h2]⟩
  · rintro ⟨u, rfl⟩
    exact ⟨by simp, by simp⟩

/-! ## Parsing a leading integer -/

/-- C7: with `d` the longest prefix of `s` made of ASCII digits, `atoi(s)` equals
the decimal value of `d` whenever that value fits in `int`, and is 0 when `d` is empty; a
string with the same leading digits gives the same result, whatever follows them. In
particular `atoi("") = 0`, `atoi("42abc") = 42` and `atoi("abc") = 0`. -/
theorem atoi_leading_digits (w : Nat) (s : GoString)
    (hfit : decimalValue (leadingDigits s) < 2 ^ (w - 1)) :
    atoi w s = Run.done (decimalValue (leadingDigits s) : Int) ∧
      (leadingDigits s = [] → atoi w s = Run.done 0) ∧
      (∀ s', leadingDigits s' = leadingDigits s → atoi w s' = atoi w s) ∧
      atoi w [] = Run.done 0 ∧
      (42 < 2 ^ (w - 1) → atoi w [52, 50, 97, 98, 99] = Run.done 42) ∧
      atoi w [97, 98, 99] = Run.done 0 := by
  have hval : atoi w s = Run.done (decimalValue (leadingDigits s) : Int) := by
    rw [atoi_eq_wrap, wrapInt_of_fits hfit]
  have hzero : ∀ u : GoString, leadingDigits u = [] → atoi w u = Run.done 0 := by
    intro u hu
    rw [atoi_eq_wrap, hu]
    simp [decimalValue, decimalFrom, wrapInt]
  refine ⟨hval, hzero s, ?_, hzero [] rfl, ?_, hzero [97, 98, 99] (by decide)⟩
  · intro s' hs'
    rw [atoi_eq_wrap, atoi_eq_wrap, hs']
  · intro h42
    have hd : decimalValue (leadingDigits [52, 50, 97, 98, 99]) = 42 := by decide
    rw [atoi_eq_wrap, hd]
    exact congrArg Run.done (wrapInt_of_fits h42)

/-- Instance of `atoi_leading_digits` for a 64-bit `int` on the string `42abc`. -/
theorem atoi_leading_digits_witness :
    decimalValue (leadingDigits [52, 50, 97, 98, 99]) < 2 ^ (64 - 1) ∧
      atoi 64 [52, 50, 97, 98, 99] =
        Run.done (decimalValue (leadingDigits [52, 50, 97, 98, 99]) : Int) :=
  ⟨by decide, (atoi_leading_digits 64 [52, 50, 97, 98, 99] (by decide)).1⟩

/-! ## Strings built from raw memory -/

/-- C8 (as amended): `gostring(nil)` is the empty string, in every state and with
nothing allocated; and for a non-nil `p` that points at bytes `B`, none zero, followed by a
zero byte, with `len(B)` below the bound `_MaxMem/2 - 1` of the array type `findnull` scans
through, and an allocator that leaves those bytes alone: `findnull(p)` is `len(B)`, and
`gostring(p)` returns a string of that length whose bytes are `B`. When `B` is not empty
the string is the one `rawstring` built, its data pointer is the buffer `rawstring`
obtained from the single allocator call made, and the state is the one `rawstring` left
with the bytes moved into that buffer; when `B` is empty the result is the empty string
and the state is unchanged, so nothing is allocated. -/
theorem gostring_copies_cstring (T : Target) (E : Allocator) (σ : World) :
    gostring T E 0 σ = Run.done (⟨0, 0⟩, σ) ∧
      ∀ (p : Nat) (B : GoString), p ≠ 0 → pointsAt σ.mem p B →
        B.length < _MaxMem T / 2 - 1 →
        (∀ i, i < B.length → (E σ ⟨B.length, 0, 8⟩).2 (p + i) = σ.mem (p + i)) →
        findnull T σ.mem p = Run.done (B.length : Int) ∧
        ∃ s σ', gostring T E p σ = Run.done (s, σ') ∧ s.len = (B.length : Int) ∧
          stringBytes σ'.mem s = B ∧
          (B ≠ [] → s = (rawstring T E (B.length : Int) σ).1.2 ∧
            s.str = (rawstring T E (B.length : Int) σ).1.1 ∧
            σ'.calls = σ.calls ++ [⟨B.length, 0, 8⟩] ∧
            σ'.mem = memmove (rawstring T E (B.length : Int) σ).2.mem
              (rawstring T E (B.length : Int) σ).1.1 p B.length) ∧
          (B = [] → s = ⟨0, 0⟩ ∧ σ' = σ) := by
  refine ⟨by simp [gostring, findnull], ?_⟩
  intro p B hp hstr hlen hpres
  have hfind := findnull_eq T σ.mem p B hp hstr hlen
  have hw : B.length < 2 ^ T.ptrBits := by
    have := _MaxMem_lt T
    omega
  have hu := toUintptr_natCast T B.length hw
  refine ⟨hfind, ?_⟩
  unfold gostring
  rw [hfind]
  simp only [Run.done_bind, Run.pure_eq]
  by_cases hB : B = []
  · subst hB
    exact ⟨⟨0, 0⟩, σ, by simp, rfl, by simp [stringBytes], fun h => absurd rfl h,
      fun _ => ⟨rfl, rfl⟩⟩
  · have hne : ¬ ((B.length : Int) = 0) := by
      have : B.length ≠ 0 := fun h => hB (List.length_eq_zero.mp h)
      exact_mod_cast this
    simp only [hne, if_false]
    refine ⟨_, _, rfl, rfl, ?_, fun _ => ⟨rfl, rfl, ?_, ?_⟩, fun h => absurd h hB⟩
    · simp only [rawstring, mallocgc, c_mallocgc, hu]
      apply stringBytes_memmove
      intro i hi
      have h8 : (1 <<< 3) % 2 ^ 32 = 8 := by decide
      simp only [Bool.not_false, if_true, h8]
      rw [hpres i hi]
      exact hstr.2.1 i hi
    · simp [rawstring, mallocgc, c_mallocgc, hu]
    · simp only [hu]

/-- Instance of `gostring_copies_cstring`: the C string `hi` at address 100, and the empty
C string at address 102, for which the state is left as it was. -/
theorem gostring_copies_cstring_witness :
    ((100 : Nat) ≠ 0 ∧ pointsAt sampleWorld.mem 100 [104, 105] ∧
        [104, 105].length < _MaxMem linuxAmd64 / 2 - 1) ∧
      (findnull linuxAmd64 sampleWorld.mem 100 =
          Run.done (([104, 105] : GoString).length : Int) ∧
        ∃ s σ', gostring linuxAmd64 sampleAllocator 100 sampleWorld = Run.done (s, σ') ∧
          stringBytes σ'.mem s = [104, 105] ∧ σ'.calls = [⟨2, 0, 8⟩]) ∧
      ((102 : Nat) ≠ 0 ∧ pointsAt sampleWorld.mem 102 []) ∧
      gostring linuxAmd64 sampleAllocator 102 sampleWorld = Run.done (⟨0, 0⟩, sampleWorld) :=
  have h1 : pointsAt sampleWorld.mem 100 [104, 105] := by
    refine ⟨by decide, ?_, by decide⟩
    intro i hi
    have hi2 : i < 2 := hi
    interval_cases i <;> rfl
  have h2 : ([104, 105] : GoString).length < _MaxMem linuxAmd64 / 2 - 1 := by decide
  have h := (gostring_copies_cstring linuxAmd64 sampleAllocator sampleWorld).2 100
    [104, 105] (by decide) h1 h2 (fun _ _ => rfl)
  have h3 : pointsAt sampleWorld.mem 102 [] :=
    ⟨fun _ hb => absurd hb (List.not_mem_nil _), fun _ hi => absurd hi (Nat.not_lt_zero _),
      by decide⟩
  have h0 := (gostring_copies_cstring linuxAmd64 sampleAllocator sampleWorld).2 102 []
    (by decide) h3 (by decide) (fun _ hi => absurd hi (Nat.not_lt_zero _))
  ⟨⟨by decide, h1, h2⟩,
    ⟨h.1, by
      obtain ⟨s, σ', e1, _, e3, e4, _⟩ := h.2
      exact ⟨s, σ', e1, e3, (e4 (by decide)).2.2.1⟩⟩,
    ⟨by decide, h3⟩, by
      obtain ⟨s, σ', e1, _, _, _, e5⟩ := h0.2
      obtain ⟨es, eσ⟩ := e5 rfl
      rw [e1, es, eσ]⟩

/-- C8 (as stated) fails: on a 64-bit target `p = 1` points at `2 ^ 38 - 2` non-zero
bytes followed by a zero byte, yet `findnull(p)` does not return that length: the index
reaches the bound of the array type and the access panics, and so does `gostring(p)`. -/
theorem findnull_faults_at_array_bound :
    pointsAt hugeMem 1 (List.replicate (2 ^ 38 - 2) 1) ∧
      findnull linuxAmd64 hugeMem 1 = Run.fault ∧
      findnull linuxAmd64 hugeMem 1 ≠
        Run.done ((List.replicate (2 ^ 38 - 2) (1 : UInt8)).length : Int) ∧
      gostring linuxAmd64 sampleAllocator 1 ⟨hugeMem, []⟩ = Run.fault := by
  have hb : _MaxMem linuxAmd64 / 2 - 1 = 2 ^ 38 - 2 := by decide
  have hone : ∀ i, i < 2 ^ 38 - 2 → hugeMem (1 + i) = 1 := by
    intro i hi
    have : ¬ (1 + i = 1 + (2 ^ 38 - 2)) := by omega
    unfold hugeMem
    rw [if_neg this]
  have hzero : hugeMem (1 + (2 ^ 38 - 2)) = 0 := by
    unfold hugeMem
    rw [if_pos rfl]
  have hf : findnull linuxAmd64 hugeMem 1 = Run.fault := by
    unfold findnull
    rw [if_neg (by decide : ¬ (1 = 0)), hb]
    apply findnullLoop_fault hugeMem 1 (2 ^ 38 - 2) _ _ 0 (Nat.zero_le _) (by omega)
    intro i hi
    rw [hone i hi]
    decide
  refine ⟨pointsAt_replicate hugeMem 1 (2 ^ 38 - 2) hone hzero, hf, ?_, ?_⟩
  · rw [hf]
    exact fun h => Run.noConfusion h
  · unfold gostring
    rw [hf]
    rfl

/-- C9: round trip. For every `n ≥ 0` and every byte sequence `B` of length `n`, after
`(p, s) = rawstring(n)` the header `s` has data pointer `p` and length `n`, so that once
`B` has been written into the `n` bytes at `p` the string `s` has length `n` and content
`B`. -/
theorem rawstring_roundtrip (T : Target) (E : Allocator) (σ : World) (n : Nat)
    (B : GoString) (hB : B.length = n) :
    (rawstring T E (n : Int) σ).1.2.str = (rawstring T E (n : Int) σ).1.1 ∧
      (rawstring T E (n : Int) σ).1.2.len = (n : Int) ∧
      (stringBytes (writeBytes (rawstring T E (n : Int) σ).2.mem
        (rawstring T E (n : Int) σ).1.1 B) (rawstring T E (n : Int) σ).1.2).length = n ∧
      stringBytes (writeBytes (rawstring T E (n : Int) σ).2.mem
        (rawstring T E (n : Int) σ).1.1 B) (rawstring T E (n : Int) σ).1.2 = B := by
  subst hB
  have hbytes : ∀ (m : Mem) (p : Nat),
      stringBytes (writeBytes m p B) ⟨p, (B.length : Int)⟩ = B := by
    intro m p
    unfold stringBytes
    apply List.ext_getElem
    · simp
    · intro i h1 h2
      have hc : p ≤ p + i ∧ i < B.length := ⟨by omega, h2⟩
      simp only [List.getElem_map, List.getElem_range, writeBytes,
        List.get_eq_getElem, Nat.add_sub_cancel_left]
      rw [dif_pos hc]
  refine ⟨rfl, rfl, ?_, ?_⟩
  · simp [stringBytes, rawstring]
  · exact hbytes _ _

/-- Instance of `rawstring_roundtrip`: two bytes written into a fresh two-byte string. -/
theorem rawstring_roundtrip_witness :
    ([104, 105] : GoString).length = 2 ∧
      stringBytes (writeBytes (rawstring linuxAmd64 sampleAllocator ((2 : Nat) : Int)
          sampleWorld).2.mem
        (rawstring linuxAmd64 sampleAllocator ((2 : Nat) : Int) sampleWorld).1.1 [104, 105])
        (rawstring linuxAmd64 sampleAllocator ((2 : Nat) : Int) sampleWorld).1.2 =
        [104, 105] :=
  ⟨rfl, (rawstring_roundtrip linuxAmd64 sampleAllocator sampleWorld 2 [104, 105] rfl).2.2.2⟩

/-- C10 (as amended): for every size `n`, `rawstring(n)` makes a single call to the
external allocator, through `mallocgc` with `needzero` false: it asks for `uintptr(n)`
bytes (`n` modulo `2 ^ w`, which is `n` itself for a size in range), with a nil type and
with flag `1 << 3`, so the no-zero bit is set and the memory is not requested zeroed. -/
theorem rawstring_requests_unzeroed (T : Target) (E : Allocator) (σ : World) (n : Int) :
    (rawstring T E n σ).2.calls = σ.calls ++ [⟨toUintptr T n, 0, 1 <<< 3⟩] ∧
      (rawstring T E n σ).2 = (mallocgc E (toUintptr T n) 0 false σ).2 ∧
      (rawstring T E n σ).1.1 = (mallocgc E (toUintptr T n) 0 false σ).1 ∧
      ((toUintptr T n : Nat) : Int) = n % ((2 ^ T.ptrBits : Nat) : Int) ∧
      (1 <<< 3) &&& (1 <<< 3) = 1 <<< 3 ∧
      (mallocgc E (toUintptr T n) 0 true σ).2.calls = σ.calls ++ [⟨toUintptr T n, 0, 0⟩] := by
  refine ⟨?_, rfl, rfl, ?_, by decide, ?_⟩
  · simp [rawstring, mallocgc, c_mallocgc]
  · unfold toUintptr
    exact Int.toNat_of_nonneg (Int.emod_nonneg _ (by positivity))
  · simp [mallocgc, c_mallocgc]

/-- C10 (as stated) fails: the one allocator call made by `rawstring(4)` carries flag 8,
whose no-zero bit `1 << 3` is set, whereas a request for zeroed memory carries flag 0. -/
theorem rawstring_sets_no_zero_bit :
    (rawstring linuxAmd64 sampleAllocator 4 sampleWorld).2.calls = [⟨4, 0, 8⟩] ∧
      (∀ c ∈ (rawstring linuxAmd64 sampleAllocator 4 sampleWorld).2.calls,
        c.flag &&& (1 <<< 3) ≠ 0) ∧
      (mallocgc sampleAllocator 4 0 true sampleWorld).2.calls = [⟨4, 0, 0⟩] := by
  decide

/-! ## Auxiliary lemmas: compare-and-swap -/

theorem noescape_eq (p : Nat) : noescape p = p := Nat.xor_zero p

theorem casp_eq_prim (cas1 : CasPrimitive) (h : PtrMem) (ptr old new : Nat) :
    casp cas1 h ptr old new = cas1 h ptr old new := by
  simp only [casp, noescape_eq]
  rcases cas1 h ptr old new with ⟨b, m⟩
  cases b <;> rfl

theorem casp_Casp1_hit (h : PtrMem) (ptr old new : Nat) (hs : h ptr = old) :
    casp Casp1 h ptr old new = (true, Function.update h ptr new) := by
  rw [casp_eq_prim]
  simp [Casp1, hs]

theorem casp_Casp1_miss (h : PtrMem) (ptr old new : Nat) (hs : h ptr ≠ old) :
    casp Casp1 h ptr old new = (false, h) := by
  rw [casp_eq_prim]
  simp [Casp1, hs]

/-! ## Auxiliary lemmas: iteration budget of `index` -/

/-- With enough budget the loop of `index` does not depend on the budget. -/
theorem indexLoop_fuel (s t : GoString) (ht : 0 < t.length) :
    ∀ fuel i, i ≤ s.length → s.length < fuel + i →
      indexLoop s t fuel i = indexLoop s t (s.length + 1 - i) i := by
  intro fuel
  induction fuel with
  | zero => intro i h h'; omega
  | succ fuel ih =>
    intro i hi hf
    by_cases hlt : i < s.length
    · have e : s.length + 1 - i = (s.length - i) + 1 := by omega
      rw [e, indexLoop_succ s t fuel i hlt ht, indexLoop_succ s t (s.length - i) i hlt ht,
        ih (i + 1) (by omega) (by omega)]
      have e2 : s.length + 1 - (i + 1) = s.length - i := by omega
      rw [e2]
    · have e : s.length + 1 - i = 0 + 1 := by omega
      rw [e, indexLoop_done s t fuel i (by omega), indexLoop_done s t 0 i (by omega)]

/-! ## The allocation trampoline -/

/-- C11: for every size, type pointer and `needzero`, `mallocgc` makes exactly one call
to the external allocator `c_mallocgc`, passing the size unchanged, the address of `typ`,
and flag 0 when `needzero` is true or `1 << 3` (8) when it is false; the pointer and the
memory it returns are those of that call, unchanged. -/
theorem mallocgc_forwards (E : Allocator) (size typ : Nat) (needzero : Bool) (σ : World) :
    mallocgc E size typ needzero σ =
        c_mallocgc E size typ (if needzero then 0 else 1 <<< 3) σ ∧
      (mallocgc E size typ needzero σ).2.calls =
        σ.calls ++ [⟨size, typ, if needzero then 0 else 8⟩] ∧
      (mallocgc E size typ needzero σ).1 =
        (E σ ⟨size, typ, if needzero then 0 else 8⟩).1 ∧
      (mallocgc E size typ needzero σ).2.mem =
        (E σ ⟨size, typ, if needzero then 0 else 8⟩).2 := by
  cases needzero <;> simp [mallocgc, c_mallocgc]

/-! ## Compare-and-swap on pointers -/

/-- C12: with `atomic.Casp1` the primitive compare-and-swap on the slot, `casp(slot, old,
new)` returns true and leaves the slot holding `new` if and only if the slot held `old`
before the call; otherwise it returns false and leaves the slots unchanged. The result of
`casp` is exactly the result of the primitive it calls, and `noescape` is the identity. -/
theorem casp_compare_and_swap (h : PtrMem) (slot old new : Nat) :
    casp Casp1 h slot old new =
        (if h slot = old then (true, Function.update h slot new) else (false, h)) ∧
      (((casp Casp1 h slot old new).1 = true ∧ (casp Casp1 h slot old new).2 slot = new) ↔
        h slot = old) ∧
      (((casp Casp1 h slot old new).1 = false ∧ (casp Casp1 h slot old new).2 = h) ↔
        h slot ≠ old) ∧
      (∀ cas1 : CasPrimitive, casp cas1 h slot old new = cas1 h slot old new) ∧
      (∀ p, noescape p = p) := by
  refine ⟨?_, ?_, ?_, fun cas1 => casp_eq_prim cas1 h slot old new, noescape_eq⟩
  · by_cases hs : h slot = old
    · rw [casp_Casp1_hit h slot old new hs, if_pos hs]
    · rw [casp_Casp1_miss h slot old new hs, if_neg hs]
  · by_cases hs : h slot = old
    · rw [casp_Casp1_hit h slot old new hs]
      simp [hs]
    · rw [casp_Casp1_miss h slot old new hs]
      simp [hs]
  · by_cases hs : h slot = old
    · rw [casp_Casp1_hit h slot old new hs]
      simp [hs]
    · rw [casp_Casp1_miss h slot old new hs]
      simp [hs]

/-- C13 (as amended): on a slot holding `old`, two `casp` calls with the same expected
value `old` and new values `n1` and `n2` both different from `old`, run as atomic steps in
either order: the call run first returns true, the other returns false, and the slot ends
up holding the new value of the call that returned true. -/
theorem casp_race_one_winner (h : PtrMem) (slot old n1 n2 : Nat) (hold : h slot = old)
    (h1 : n1 ≠ old) (h2 : n2 ≠ old) :
    ((caspTwice h slot old n1 n2).1 = true ∧ (caspTwice h slot old n1 n2).2.1 = false ∧
        (caspTwice h slot old n1 n2).2.2 slot = n1) ∧
      ((caspTwice h slot old n2 n1).1 = true ∧ (caspTwice h slot old n2 n1).2.1 = false ∧
        (caspTwice h slot old n2 n1).2.2 slot = n2) := by
  have key : ∀ a b : Nat, a ≠ old →
      caspTwice h slot old a b = (true, false, Function.update h slot a) := by
    intro a b ha
    have hmiss : Function.update h slot a slot ≠ old := by
      rw [Function.update_same]
      exact ha
    simp only [caspTwice, casp_Casp1_hit h slot old a hold,
      casp_Casp1_miss (Function.update h slot a) slot old b hmiss]
  rw [key n1 n2 h1, key n2 n1 h2]
  simp

/-- Instance of `casp_race_one_winner`: every slot holds pointer 1, the two calls want to
store pointers 2 and 3. -/
theorem casp_race_one_winner_witness :
    ((fun _ => 1 : PtrMem) 16 = 1 ∧ (2 : Nat) ≠ 1 ∧ (3 : Nat) ≠ 1) ∧
      ((caspTwice (fun _ => 1) 16 1 2 3).1 = true ∧
        (caspTwice (fun _ => 1) 16 1 2 3).2.1 = false ∧
        (caspTwice (fun _ => 1) 16 1 2 3).2.2 16 = 2) ∧
      ((caspTwice (fun _ => 1) 16 1 3 2).1 = true ∧
        (caspTwice (fun _ => 1) 16 1 3 2).2.1 = false ∧
        (caspTwice (fun _ => 1) 16 1 3 2).2.2 16 = 3) :=
  ⟨⟨rfl, by decide, by decide⟩,
    casp_race_one_winner (fun _ => 1) 16 1 2 3 rfl (by decide) (by decide)⟩

/-- C13 (as stated) fails: the slot holds pointer 1, the first call swaps 1 for 1 and the
second swaps 1 for 2; run in that order both calls return true. -/
theorem casp_race_both_succeed :
    (fun _ => 1 : PtrMem) 16 = 1 ∧
      (caspTwice (fun _ => 1) 16 1 1 2).1 = true ∧
      (caspTwice (fun _ => 1) 16 1 1 2).2.1 = true ∧
      (caspTwice (fun _ => 1) 16 1 1 2).2.2 16 = 2 := by
  decide

/-! ## Running a function on the system stack -/

/-- C14 (as amended): `systemstack(fn)` does not look at the context it is called from:
in every context, also one already on the system stack or one whose worker has no task, it
ends exactly as `fn()` ends, so it reaches a fatal error only when `fn` itself does, and it
never calls `badsystemstack`. `badsystemstack` itself, when called, throws "systemstack
called from unexpected goroutine". -/
theorem systemstack_ignores_context (fn : GoFunc Context) (c : Context) :
    systemstack fn c = fn c ∧
      (∀ c', fn c = Exec.returns c' ↔ systemstack fn c = Exec.returns c') ∧
      (∀ msg c', fn c = Exec.thrown msg c' ↔ systemstack fn c = Exec.thrown msg c') ∧
      badsystemstack c = Exec.thrown badsystemstackMsg c ∧
      badsystemstackMsg = "systemstack called from unexpected goroutine" :=
  ⟨rfl, fun _ => Iff.rfl, fun _ _ => Iff.rfl, rfl, rfl⟩

/-- C14 (as stated) fails: called with a function that returns, once from a context
already on the system stack and once on a worker with no task, `systemstack` returns
normally; it does not end as `badsystemstack` does. -/
theorem systemstack_on_system_stack_returns :
    (⟨true, true⟩ : Context).onSystemStack = true ∧
      systemstack Exec.returns (⟨true, true⟩ : Context) = Exec.returns ⟨true, true⟩ ∧
      systemstack Exec.returns (⟨true, true⟩ : Context) ≠ badsystemstack ⟨true, true⟩ ∧
      (⟨false, false⟩ : Context).hasTask = false ∧
      systemstack Exec.returns (⟨false, false⟩ : Context) = Exec.returns ⟨false, false⟩ ∧
      systemstack Exec.returns (⟨false, false⟩ : Context) ≠ badsystemstack ⟨false, false⟩ :=
  ⟨rfl, rfl, fun h => Exec.noConfusion h, rfl, rfl, fun h => Exec.noConfusion h⟩

/-- C15: for every function `fn` and every starting state, `systemstack(fn)` just runs
the function: it ends in the state and the way `fn()` ends, it returns normally if and only
if `fn` does, the caller continues after it as it would after `fn()`, and `fn` is invoked
exactly once. -/
theorem systemstack_runs_fn {σ : Type} (fn : GoFunc σ) (s : σ) :
    systemstack fn s = fn s ∧
      (∀ s', systemstack fn s = Exec.returns s' ↔ fn s = Exec.returns s') ∧
      (∀ k : GoFunc σ, (systemstack fn s).andThen k = (fn s).andThen k) ∧
      (∀ c : Nat, (systemstack (counted fn) (s, c)).state.2 = c + 1) := by
  refine ⟨rfl, fun _ => Iff.rfl, fun _ => rfl, ?_⟩
  intro c
  show (counted fn (s, c)).state.2 = c + 1
  unfold counted
  cases fn s <;> rfl

/-! ## Typed copy -/

/-- C16: for every type descriptor and pointers `dst` and `src`, `typedmemmove(typ, dst,
src)` has exactly the effect of `memmove(dst, src, typ.size)`: the `typ.size` bytes at `dst`
become the bytes that were at `src`, nothing else changes, and a descriptor with the same
`size` gives the same result whatever its other fields are. -/
theorem typedmemmove_is_memmove (typ typ' : _type) (dst src : Nat) (R : Runtime)
    (hsize : typ'.size = typ.size) :
    (typedmemmove typ dst src R).mem = memmove R.mem dst src typ.size ∧
      (typedmemmove typ dst src R).writeBarrier = R.writeBarrier ∧
      (typedmemmove typ dst src R).barrierCalls = R.barrierCalls ∧
      (∀ i, i < typ.size → (typedmemmove typ dst src R).mem (dst + i) = R.mem (src + i)) ∧
      (∀ a, (a < dst ∨ dst + typ.size ≤ a) → (typedmemmove typ dst src R).mem a = R.mem a) ∧
      typedmemmove typ' dst src R = typedmemmove typ dst src R := by
  refine ⟨rfl, rfl, rfl, ?_, ?_, ?_⟩
  · intro i hi
    have hc : dst ≤ dst + i ∧ dst + i < dst + typ.size := ⟨by omega, by omega⟩
    simp only [typedmemmove, memmove]
    rw [if_pos hc, Nat.add_sub_cancel_left]
  · intro a ha
    have hc : ¬ (dst ≤ a ∧ a < dst + typ.size) := by omega
    simp only [typedmemmove, memmove]
    rw [if_neg hc]
  · simp only [typedmemmove, hsize]

/-- Instance of `typedmemmove_is_memmove`: two descriptors of size 2 that differ in every
other field. -/
theorem typedmemmove_is_memmove_witness :
    (⟨2, 25, 77⟩ : _type).size = (⟨2, 1, 0⟩ : _type).size ∧
      (typedmemmove ⟨2, 1, 0⟩ 200 100 barrierOnRuntime).mem =
        memmove barrierOnRuntime.mem 200 100 2 ∧
      typedmemmove ⟨2, 25, 77⟩ 200 100 barrierOnRuntime =
        typedmemmove ⟨2, 1, 0⟩ 200 100 barrierOnRuntime :=
  have h := typedmemmove_is_memmove ⟨2, 1, 0⟩ ⟨2, 25, 77⟩ 200 100 barrierOnRuntime rfl
  ⟨rfl, h.1, h.2.2.2.2.2⟩

/-- C17 (as amended): `typedmemmove` neither consults `writeBarrier.enabled` nor calls
the collector's barrier hook: whatever the variable `writeBarrier` holds, the copy writes
the same memory, leaves the variable alone and adds no call of the hook. -/
theorem typedmemmove_skips_barrier (typ : _type) (dst src : Nat) (R : Runtime) :
    (typedmemmove typ dst src R).barrierCalls = R.barrierCalls ∧
      (typedmemmove typ dst src R).writeBarrier = R.writeBarrier ∧
      (∀ wb : WriteBarrier,
        (typedmemmove typ dst src { R with writeBarrier := wb }).mem =
          (typedmemmove typ dst src R).mem ∧
        (typedmemmove typ dst src { R with writeBarrier := wb }).barrierCalls =
          R.barrierCalls) :=
  ⟨rfl, rfl, fun _ => ⟨rfl, rfl⟩⟩

/-- C17 (as stated) fails: with `writeBarrier.enabled` true, the typed copy of two
bytes from address 100 to address 200 is committed to memory and the barrier hook has not
been called. -/
theorem typedmemmove_barrier_not_called :
    barrierOnRuntime.writeBarrier.enabled = true ∧
      barrierOnRuntime.mem 200 = 0 ∧
      (typedmemmove ⟨2, 1, 0⟩ 200 100 barrierOnRuntime).mem 200 = 104 ∧
      (typedmemmove ⟨2, 1, 0⟩ 200 100 barrierOnRuntime).mem 201 = 105 ∧
      (typedmemmove ⟨2, 1, 0⟩ 200 100 barrierOnRuntime).barrierCalls = [] := by
  decide

/-! ## Syscall boundary -/

/-- C18: for every task and mark kind `k`, `entersyscall(k)` followed by
`exitsyscall(k)` leaves the task with status `running` and attached to a worker: the worker
it had when that one is still available, the one handed out by the scheduler otherwise. -/
theorem syscall_roundtrip_running (S : Scheduler) (k : Int) (t : Task) :
    (entersyscall k t).status = Status.inSyscall ∧
      (exitsyscall S k (entersyscall k t)).status = Status.running ∧
      (∃ m, (exitsyscall S k (entersyscall k t)).worker = some m) ∧
      (∀ m, t.worker = some m → S.available m = true →
        (exitsyscall S k (entersyscall k t)).worker = some m) ∧
      (∀ m, t.worker = some m → S.available m = false →
        (exitsyscall S k (entersyscall k t)).worker =
          some (S.reattach (entersyscall k t))) := by
  refine ⟨rfl, rfl, ⟨_, rfl⟩, ?_, ?_⟩
  · intro m hm ha
    simp [exitsyscall, entersyscall, hm, ha]
  · intro m hm ha
    simp [exitsyscall, entersyscall, hm, ha]

/-! ## Overflow and safety of the string helpers -/

/-- C19: `atoi` does no overflow checking: for every string it returns a value, the
decimal value of the longest leading run of ASCII digits reduced modulo `2 ^ w` and read as
a signed `w`-bit integer, also when that value does not fit in `int`; so the 19 digits of
`2 ^ 63` give `-2 ^ 63` for a 64-bit `int`. -/
theorem atoi_wraps_without_check (w : Nat) (hw : 0 < w) (s : GoString) :
    atoi w s = Run.done (wrapInt w (decimalValue (leadingDigits s))) ∧
      wrapInt w (decimalValue (leadingDigits s)) ≡
        (decimalValue (leadingDigits s) : Int) [ZMOD ((2 ^ w : Nat) : Int)] ∧
      -(2 ^ (w - 1) : Int) ≤ wrapInt w (decimalValue (leadingDigits s)) ∧
      wrapInt w (decimalValue (leadingDigits s)) < (2 ^ (w - 1) : Int) ∧
      atoi 64 [57, 50, 50, 51, 51, 55, 50, 48, 51, 54, 56, 53, 52, 55, 55, 53, 56, 48, 56] =
        Run.done (-9223372036854775808) := by
  refine ⟨atoi_eq_wrap w s, wrapInt_modEq w _, ?_, ?_, ?_⟩
  · obtain ⟨k, rfl⟩ : ∃ k, w = k + 1 := ⟨w - 1, by omega⟩
    have h := Int.le_bmod (x := (decimalValue (leadingDigits s) : Int)) (m := 2 ^ (k + 1))
      (Nat.two_pow_pos _)
    unfold wrapInt
    simp only [Nat.add_sub_cancel]
    have e : ((2 ^ (k + 1) : Nat) : Int) / 2 = (2 ^ k : Int) := by
      push_cast
      rw [pow_succ]
      omega
    rw [e] at h
    exact h
  · obtain ⟨k, rfl⟩ : ∃ k, w = k + 1 := ⟨w - 1, by omega⟩
    have h := Int.bmod_lt (x := (decimalValue (leadingDigits s) : Int)) (m := 2 ^ (k + 1))
      (Nat.two_pow_pos _)
    unfold wrapInt
    simp only [Nat.add_sub_cancel]
    have e : (((2 ^ (k + 1) : Nat) : Int) + 1) / 2 = (2 ^ k : Int) := by
      push_cast
      rw [pow_succ]
      omega
    rw [e] at h
    exact h
  · have hd : decimalValue (leadingDigits
        [57, 50, 50, 51, 51, 55, 50, 48, 51, 54, 56, 53, 52, 55, 55, 53, 56, 48, 56]) =
        9223372036854775808 := by
      decide
    rw [atoi_eq_wrap, hd]
    exact congrArg Run.done (by decide)

/-- Instance of `atoi_wraps_without_check`: an 8-bit `int` reads `128` as `-128`. -/
theorem atoi_wraps_without_check_witness :
    0 < 8 ∧ atoi 8 [49, 50, 56] = Run.done (wrapInt 8 (decimalValue (leadingDigits [49, 50, 56]))) ∧
      wrapInt 8 (decimalValue (leadingDigits [49, 50, 56])) = -128 :=
  ⟨by decide, (atoi_wraps_without_check 8 (by decide) [49, 50, 56]).1, by decide⟩

/-- C20: for all strings `s` and `t`, `index(s, t)`, `hasprefix(s, t)` and `atoi(s)`
terminate with a value and never index or slice out of range: none of them panics, and
their loops end within `len(s) + 1` iterations, a larger iteration budget changing
nothing. -/
theorem string_helpers_total (w : Nat) (s t : GoString) :
    (∃ r, index s t = Run.done r) ∧ (∃ b, hasprefix s t = Run.done b) ∧
      (∃ n, atoi w s = Run.done n) ∧
      (∀ extra, (if t.length = 0 then pure 0 else indexLoop s t (s.length + 1 + extra) 0) =
        index s t) ∧
      (∀ extra, atoiLoop w (s.length + 1 + extra) s 0 = atoi w s) := by
  refine ⟨?_, ⟨_, hasprefix_eq s t⟩, ⟨_, atoi_eq_wrap w s⟩, ?_, ?_⟩
  · unfold index
    by_cases ht : t.length = 0
    · exact ⟨0, by simp [ht]⟩
    · simp only [ht, if_false]
      rcases indexLoop_spec s t (Nat.pos_of_ne_zero ht) (s.length + 1) 0 (Nat.zero_le _)
          (by omega) with ⟨r, h1, _⟩ | ⟨h1, _⟩
      · exact ⟨_, h1⟩
      · exact ⟨_, h1⟩
  · intro extra
    unfold index
    by_cases ht : t.length = 0
    · simp [ht]
    · simp only [ht, if_false]
      rw [indexLoop_fuel s t (Nat.pos_of_ne_zero ht) (s.length + 1 + extra) 0 (Nat.zero_le _)
        (by omega)]
      rfl
  · intro extra
    unfold atoi
    rw [atoiLoop_eq_foldl w _ s 0 (by omega), atoiLoop_eq_foldl w _ s 0 (Nat.lt_succ_self _)]

end Stubs
